import Mathlib

/-
  Verification development for the `sga assemble` subprogram
  (assemble.cpp: option parsing and the string-graph simplification
  pipeline).  The pipeline is embedded shallowly: the graph is an
  abstract state type `G`, each mutating visitor is a function
  `G → G × Bool` (the Bool is the "graph changed" flag returned by
  `StringGraph::visit`), and a run of `assemble()` produces a trace of
  events, each recording the kind of operation and the graph state at
  the moment the operation is invoked.  The two `while` loops of the
  source (`while(pGraph->hasContainment())` and
  `while(pGraph->visit(smallRepeatVisit))`) are given a fuel parameter;
  a run that does not terminate within the fuel yields `none`.
-/

/-- Kinds of observable pipeline events, one per operation performed on
the graph by `assemble()` in assemble.cpp. -/
inductive EvKind where
  | visitStats
  | visitDebugCompare
  | visitEdgeStats
  | visitContain
  | visitTR
  | visitValidate
  | visitErrorCorrect
  | visitFastaFile (file : String)
  | writeASQG (file : String)
  | visitRemodel
  | visitTrim
  | visitSmoothing
  | visitSmallRepeat
  | visitBubble
  | graphSimplify
  | graphValidate
  | renameVerts (pfx : String)
  | writeDot (file : String)
  deriving DecidableEq, Repr

/-- A pipeline event: the operation kind together with the graph state
at the moment the operation is invoked (its pre-state). -/
structure Ev (G : Type) where
  kind : EvKind
  pre : G
  deriving DecidableEq, Repr

/-- The option state of the `opt` namespace of assemble.cpp. -/
structure Opts where
  verbose : Nat
  asqgFile : String
  pfx : String
  outFile : String
  debugFile : String
  asqgOutfile : String
  minOverlap : Nat
  bEdgeStats : Bool
  bCorrectReads : Bool
  bRemodelGraph : Bool
  bSmoothGraph : Bool
  resolveSmallRepeatLen : Int
  numTrimRounds : Int
  numBubbleRounds : Int
  bValidate : Bool
  bExact : Bool
  deriving DecidableEq, Repr

/-- The static initializers of the `opt` namespace (C++ statics are
zero-initialized; `resolveSmallRepeatLen` is explicitly `-1`). -/
def initOpts : Opts :=
  { verbose := 0
    asqgFile := ""
    pfx := ""
    outFile := ""
    debugFile := ""
    asqgOutfile := ""
    minOverlap := 0
    bEdgeStats := false
    bCorrectReads := false
    bRemodelGraph := false
    bSmoothGraph := false
    resolveSmallRepeatLen := -1
    numTrimRounds := 0
    numBubbleRounds := 0
    bValidate := false
    bExact := false }

/-- Abstract interface of the string graph as used by `assemble()`:
`hasContainment` answers `StringGraph::hasContainment()`, each visitor
field is the effect of `pGraph->visit(v)` (new state and the returned
"graph changed" flag), `simplify` is `StringGraph::simplify()` and
`renameVertices` is `StringGraph::renameVertices`.  The pipeline is
verified for every interpretation of this interface. -/
structure SGOps (G : Type) where
  hasContainment : G → Bool
  containVisit : G → G × Bool
  trVisit : G → G × Bool
  errorCorrectVisit : G → G × Bool
  remodelVisit : G → G × Bool
  trimVisit : G → G × Bool
  smoothingVisit : G → G × Bool
  smallRepeatVisit : Int → G → G × Bool
  bubbleVisit : G → G × Bool
  simplify : G → G
  renameVertices : String → G → G

variable {G : Type}

/-- The containment-removal fixed point of assemble.cpp lines 162-165
and 208-212: `while(pGraph->hasContainment()) pGraph->visit(containVisit);`,
with fuel.  Returns the final state and the trace of containment visits. -/
def containLoop (ops : SGOps G) : Nat → G → Option (G × List (Ev G))
  | 0, g => if ops.hasContainment g then none else some (g, [])
  | fuel + 1, g =>
    if ops.hasContainment g then
      match containLoop ops fuel (ops.containVisit g).1 with
      | none => none
      | some (g', t) => some (g', ⟨.visitContain, g⟩ :: t)
    else some (g, [])

/-- A fixed number of visitor rounds, as in
`while(numTrims-- > 0) pGraph->visit(trimVisit);` — the changed flag of
each visit is discarded. -/
def roundsVisits (f : G → G × Bool) (k : EvKind) : Nat → G → G × List (Ev G)
  | 0, g => (g, [])
  | n + 1, g =>
    let r := roundsVisits f k n (f g).1
    (r.1, ⟨k, g⟩ :: r.2)

/-- The small-repeat fixed point of assemble.cpp line 244:
`while(pGraph->visit(smallRepeatVisit)) {}` — the visitor is re-applied
until an application reports that the graph did not change; with fuel. -/
def smallRepeatLoop (ops : SGOps G) (len : Int) : Nat → G → Option (G × List (Ev G))
  | 0, _ => none
  | fuel + 1, g =>
    if (ops.smallRepeatVisit len g).2 then
      match smallRepeatLoop ops len fuel (ops.smallRepeatVisit len g).1 with
      | none => none
      | some (g', t) => some (g', ⟨.visitSmallRepeat, g⟩ :: t)
    else some ((ops.smallRepeatVisit len g).1, [⟨.visitSmallRepeat, g⟩])

/-- Events of assemble.cpp lines 128-158 before any graph mutation.
Modelled from the spec: `SGGraphStatsVisitor`, `SGEdgeStatsVisitor` and
`SGDebugGraphCompareVisitor` (declared in headers outside this
repository's sources) are reporting passes; per the spec's visitor
taxonomy they observe the graph and are modelled as read-only events
that leave the graph state unchanged. -/
def preTrace (o : Opts) (g : G) : List (Ev G) :=
  (if o.debugFile = "" then []
   else [⟨.visitStats, g⟩, ⟨.visitDebugCompare, g⟩, ⟨.visitStats, g⟩])
  ++ (if o.bEdgeStats then [⟨.visitEdgeStats, g⟩] else [])
  ++ [⟨.visitStats, g⟩]

/-- Lines 167-173: post-containment stats, then one transitive-reduction
pass. -/
def trPhase (ops : SGOps G) (g : G) : G × List (Ev G) :=
  ((ops.trVisit g).1, [⟨.visitStats, g⟩, ⟨.visitTR, g⟩])

/-- Lines 178-188: optional structural validation (runtime `--validate`
flag), then pre-remodelling stats.  Modelled from the spec: the
structural validation pass walks the graph and reports faults; it does
not mutate the graph. -/
def validatePhase (o : Opts) (g : G) : List (Ev G) :=
  (if o.bValidate then [⟨.visitValidate, g⟩] else []) ++ [⟨.visitStats, g⟩]

/-- Lines 190-199: optional error correction, writing of the corrected
reads and the post-error-correction graph snapshot.  Modelled from the
spec: `SGFastaVisitor` and `StringGraph::writeASQG` serialize the graph
and leave it unchanged. -/
def correctPhase (ops : SGOps G) (o : Opts) (g : G) : G × List (Ev G) :=
  if o.bCorrectReads then
    ((ops.errorCorrectVisit g).1,
      [⟨.visitErrorCorrect, g⟩,
       ⟨.visitFastaFile "correctedReads.fa", (ops.errorCorrectVisit g).1⟩,
       ⟨.writeASQG "afterEC.asqg.gz", (ops.errorCorrectVisit g).1⟩])
  else (g, [])

/-- Lines 201-217: optional remodelling — remodel visitor, post-remodel
snapshot, containment removal to a fixed point, one transitive-reduction
pass, stats. -/
def remodelPhase (ops : SGOps G) (o : Opts) (fuel : Nat) (g : G) :
    Option (G × List (Ev G)) :=
  if o.bRemodelGraph then
    match containLoop ops fuel (ops.remodelVisit g).1 with
    | none => none
    | some (g2, tc) =>
      some ((ops.trVisit g2).1,
        [⟨.visitRemodel, g⟩, ⟨.writeASQG "afterRM.asqg.gz", (ops.remodelVisit g).1⟩]
          ++ tc ++ [⟨.visitTR, g2⟩, ⟨.visitStats, (ops.trVisit g2).1⟩])
  else some (g, [])

/-- Lines 219-226: optional trimming, exactly `numTrimRounds` rounds. -/
def trimPhase (ops : SGOps G) (o : Opts) (g : G) : G × List (Ev G) :=
  if 0 < o.numTrimRounds then
    roundsVisits ops.trimVisit .visitTrim o.numTrimRounds.toNat g
  else (g, [])

/-- Lines 228-237: optional smoothing, exactly 4 rounds (hardcoded
`int numSmooth = 4`). -/
def smoothPhase (ops : SGOps G) (o : Opts) (g : G) : G × List (Ev G) :=
  if o.bSmoothGraph then roundsVisits ops.smoothingVisit .visitSmoothing 4 g
  else (g, [])

/-- Lines 239-248: optional small-repeat resolution to a fixed point,
then stats. -/
def smallRepeatPhase (ops : SGOps G) (o : Opts) (fuel : Nat) (g : G) :
    Option (G × List (Ev G)) :=
  if 0 ≤ o.resolveSmallRepeatLen then
    match smallRepeatLoop ops o.resolveSmallRepeatLen fuel g with
    | none => none
    | some (g', t) => some (g', t ++ [⟨.visitStats, g'⟩])
  else some (g, [])

/-- Lines 250-269: the unconditional post-modification snapshot,
pre-simplify stats, and the first `simplify()` (path compaction). -/
def compactPhase (ops : SGOps G) (g : G) : G × List (Ev G) :=
  (ops.simplify g,
   [⟨.writeASQG "postmod.asqg.gz", g⟩, ⟨.visitStats, g⟩, ⟨.graphSimplify, g⟩])

/-- Lines 271-279: optional bubble removal, exactly `numBubbleRounds`
rounds, followed by a second `simplify()`. -/
def bubblePhase (ops : SGOps G) (o : Opts) (g : G) : G × List (Ev G) :=
  if 0 < o.numBubbleRounds then
    ((ops.simplify (roundsVisits ops.bubbleVisit .visitBubble o.numBubbleRounds.toNat g).1),
      (roundsVisits ops.bubbleVisit .visitBubble o.numBubbleRounds.toNat g).2
        ++ [⟨.graphSimplify,
             (roundsVisits ops.bubbleVisit .visitBubble o.numBubbleRounds.toNat g).1⟩])
  else (g, [])

/-- Lines 281-300: final stats, the compile-time `VALIDATE` graph check
(build flag `bv`), vertex renaming, dot output, contig output, and the
optional final graph snapshot. -/
def finalPhase (ops : SGOps G) (o : Opts) (bv : Bool) (g : G) : G × List (Ev G) :=
  (ops.renameVertices "contig-" g,
   [⟨.visitStats, g⟩]
     ++ (if bv then [⟨.graphValidate, g⟩] else [])
     ++ [⟨.renameVerts "contig-", g⟩,
         ⟨.writeDot "final.dot", ops.renameVertices "contig-" g⟩,
         ⟨.visitFastaFile o.outFile, ops.renameVertices "contig-" g⟩]
     ++ (if o.asqgOutfile = "" then []
         else [⟨.writeASQG o.asqgOutfile, ops.renameVertices "contig-" g⟩]))

/-- The `assemble()` function of assemble.cpp as a trace-producing
state transformer: the phases run in the source's order, threading the
graph state; `none` means one of the two unbounded `while` loops did
not terminate within the fuel. -/
def assembleRun (ops : SGOps G) (o : Opts) (bv : Bool) (fuel : Nat) (g0 : G) :
    Option (G × List (Ev G)) :=
  match containLoop ops fuel g0 with
  | none => none
  | some (g1, tc1) =>
    match remodelPhase ops o fuel (correctPhase ops o (trPhase ops g1).1).1 with
    | none => none
    | some (g5, t5) =>
      match smallRepeatPhase ops o fuel (smoothPhase ops o (trimPhase ops o g5).1).1 with
      | none => none
      | some (g8, t8) =>
        some ((finalPhase ops o bv (bubblePhase ops o (compactPhase ops g8).1).1).1,
          preTrace o g0 ++ tc1 ++ (trPhase ops g1).2
            ++ validatePhase o (trPhase ops g1).1
            ++ (correctPhase ops o (trPhase ops g1).1).2
            ++ t5
            ++ (trimPhase ops o g5).2
            ++ (smoothPhase ops o (trimPhase ops o g5).1).2
            ++ t8
            ++ (compactPhase ops g8).2
            ++ (bubblePhase ops o (compactPhase ops g8).1).2
            ++ (finalPhase ops o bv (bubblePhase ops o (compactPhase ops g8).1).1).2)

/-- The event trace of a run (`[]` when the run did not terminate). -/
def runTrace (ops : SGOps G) (o : Opts) (bv : Bool) (fuel : Nat) (g0 : G) :
    List (Ev G) :=
  ((assembleRun ops o bv fuel g0).map Prod.snd).getD []

/-- A command-line item as classified by `getopt_long` with the option
table of assemble.cpp: one constructor per `case` of
`parseAssembleOptions`, with the option argument already extracted (the
`getopt`/`istringstream` machinery is libc and standard-library code,
outside this repository).  `unknownOpt` is `getopt_long` returning
`?` for an unrecognized flag. -/
inductive CLItem where
  | pfxOpt (s : String)
  | outOpt (s : String)
  | minOverlapOpt (n : Nat)
  | debugFileOpt (s : String)
  | unknownOpt
  | verboseOpt
  | bubbleOpt (n : Int)
  | smoothOpt
  | trimOpt (n : Int)
  | asqgOutfileOpt (s : String)
  | correctOpt
  | resolveSmallOpt (n : Int)
  | remodelOpt
  | edgeStatsOpt
  | exactOpt
  | validateOpt
  | helpOpt
  | versionOpt
  deriving DecidableEq, Repr

/-- One iteration of the option-processing `switch` of
`parseAssembleOptions`: updates the option state and the `die` flag;
`none` models `exit(EXIT_SUCCESS)` on `--help` or `--version`. -/
def applyCLItem (o : Opts) (die : Bool) : CLItem → Option (Opts × Bool)
  | .pfxOpt s => some ({ o with pfx := s }, die)
  | .outOpt s => some ({ o with outFile := s }, die)
  | .minOverlapOpt n => some ({ o with minOverlap := n }, die)
  | .debugFileOpt s => some ({ o with debugFile := s }, die)
  | .unknownOpt => some (o, true)
  | .verboseOpt => some ({ o with verbose := o.verbose + 1 }, die)
  | .bubbleOpt n => some ({ o with numBubbleRounds := n }, die)
  | .smoothOpt => some ({ o with bSmoothGraph := true }, die)
  | .trimOpt n => some ({ o with numTrimRounds := n }, die)
  | .asqgOutfileOpt s => some ({ o with asqgOutfile := s }, die)
  | .correctOpt => some ({ o with bCorrectReads := true }, die)
  | .resolveSmallOpt n => some ({ o with resolveSmallRepeatLen := n }, die)
  | .remodelOpt => some ({ o with bRemodelGraph := true }, die)
  | .edgeStatsOpt => some ({ o with bEdgeStats := true }, die)
  | .exactOpt => some ({ o with bExact := true }, die)
  | .validateOpt => some ({ o with bValidate := true }, die)
  | .helpOpt => none
  | .versionOpt => none

/-- The option-processing `for` loop of `parseAssembleOptions`. -/
def runCLItems : Opts → Bool → List CLItem → Option (Opts × Bool)
  | o, die, [] => some (o, die)
  | o, die, it :: rest =>
    match applyCLItem o die it with
    | none => none
    | some (o', die') => runCLItems o' die' rest

/-- Outcome of `parseAssembleOptions`: `exitedSuccess` is the
`exit(EXIT_SUCCESS)` of `--help`/`--version`, `usageError` is the
`exit(EXIT_FAILURE)` taken when `die` is set, and `parsed o` is normal
return with the final option state. -/
inductive ParseResult where
  | exitedSuccess
  | usageError
  | parsed (o : Opts)
  deriving DecidableEq, Repr

/-- The positional-argument check of `parseAssembleOptions` lines
345-354: `die` is forced when there are fewer or more than one
positional arguments. -/
def finalDie (die : Bool) (pos : List String) : Bool :=
  if pos.length < 1 then true else if 1 < pos.length then true else die

/-- The function `parseAssembleOptions` of assemble.cpp lines 307-364: set the
defaults (`outFile = "contigs.fa"`, `minOverlap = 0`), process the
options, flag `die` on a missing or excess positional argument, exit
nonzero if `die`, otherwise record the positional argument as the
input graph file. -/
def parseAssembleOptions (items : List CLItem) (pos : List String) : ParseResult :=
  match runCLItems { initOpts with outFile := "contigs.fa", minOverlap := 0 } false items with
  | none => .exitedSuccess
  | some (o, die) =>
    if finalDie die pos then .usageError
    else .parsed { o with asqgFile := pos.headI }

/-- The function `assembleMain` of assemble.cpp lines 96-104: parse options, then run
the pipeline and return exit code 0.  A usage error is `exit(EXIT_FAILURE)`
(code 1) with no pipeline events; `--help`/`--version` is
`exit(EXIT_SUCCESS)` (code 0) with no pipeline events.  The `loader`
argument stands for `SGUtil::loadASQG(opt::asqgFile, opt::minOverlap, true)`. -/
def assembleMain (ops : SGOps G) (bv : Bool) (fuel : Nat) (loader : String → Nat → G)
    (items : List CLItem) (pos : List String) : Option (Nat × List (Ev G)) :=
  match parseAssembleOptions items pos with
  | .exitedSuccess => some (0, [])
  | .usageError => some (1, [])
  | .parsed o =>
    match assembleRun ops o bv fuel (loader o.asqgFile o.minOverlap) with
    | none => none
    | some r => some (0, r.2)

/-- An overlap record of the ASQG exchange file, reduced to the fields
relevant to length filtering at load time. -/
structure OverlapRec where
  idA : String
  idB : String
  overlapLen : Nat
  deriving DecidableEq, Repr

/-- Modelled from the spec: `SGUtil::loadASQG` (declared in SGUtil.h,
its definition is outside this repository's sources) builds the graph
from the ASQG file, and per the usage message of assemble.cpp
("only use overlaps of at least LEN") keeps exactly the overlap records
whose length is at least the minimum-overlap parameter. -/
def loadASQG (recs : List OverlapRec) (minOverlap : Nat) : List OverlapRec :=
  recs.filter fun r => decide (minOverlap ≤ r.overlapLen)

/-- Kind predicate: transitive-reduction events. -/
def kTR : EvKind → Bool
  | .visitTR => true
  | _ => false

/-- Kind predicate: containment-removal events. -/
def kContain : EvKind → Bool
  | .visitContain => true
  | _ => false

/-- Kind predicate: structural-validation events. -/
def kValidate : EvKind → Bool
  | .visitValidate => true
  | _ => false

/-- Kind predicate: trimming events. -/
def kTrim : EvKind → Bool
  | .visitTrim => true
  | _ => false

/-- Kind predicate: smoothing events. -/
def kSmooth : EvKind → Bool
  | .visitSmoothing => true
  | _ => false

/-- Kind predicate: small-repeat-resolution events. -/
def kSmallRepeat : EvKind → Bool
  | .visitSmallRepeat => true
  | _ => false

/-- Kind predicate: bubble-popping events. -/
def kBubble : EvKind → Bool
  | .visitBubble => true
  | _ => false

/-- Kind predicate: path-compaction (`simplify`) events. -/
def kSimplify : EvKind → Bool
  | .graphSimplify => true
  | _ => false

/-- Kind predicate: `simplify` or bubble events (for the compaction /
bubble-popping ordering). -/
def kSB (k : EvKind) : Bool := kSimplify k || kBubble k

/-- Kind predicate: containment, transitive-reduction or remodel events. -/
def kRCT : EvKind → Bool
  | .visitContain => true
  | .visitTR => true
  | .visitRemodel => true
  | _ => false

/-- Kind predicate: transitive-reduction or validation events. -/
def kTV : EvKind → Bool
  | .visitTR => true
  | .visitValidate => true
  | _ => false

/-- Kind predicate: snapshot-relevant events — error correction, remodel
and graph-exchange (`writeASQG`) writes. -/
def kSnap : EvKind → Bool
  | .visitErrorCorrect => true
  | .visitRemodel => true
  | .writeASQG _ => true
  | _ => false

/-- Kind predicate: graph-modification stages (everything the spec calls
a modification: containment removal, transitive reduction, error
correction, remodel, trimming, smoothing, small-repeat resolution). -/
def kMod : EvKind → Bool
  | .visitContain => true
  | .visitTR => true
  | .visitErrorCorrect => true
  | .visitRemodel => true
  | .visitTrim => true
  | .visitSmoothing => true
  | .visitSmallRepeat => true
  | _ => false

/-- Every event of a containment-removal loop trace is a containment
visit. -/
theorem containLoop_kinds (ops : SGOps G) :
    ∀ fuel g g' t, containLoop ops fuel g = some (g', t) →
      ∀ e ∈ t, e.kind = EvKind.visitContain := by
  intro fuel
  induction fuel with
  | zero =>
    intro g g' t h e he
    simp only [containLoop] at h
    split at h
    · exact absurd h (by simp)
    · obtain ⟨rfl, rfl⟩ := by simpa using h
      simp at he
  | succ n ih =>
    intro g g' t h e he
    simp only [containLoop] at h
    split at h
    · cases hc : containLoop ops n (ops.containVisit g).1 with
      | none => rw [hc] at h; exact absurd h (by simp)
      | some r =>
        rw [hc] at h
        obtain ⟨rfl, rfl⟩ := by simpa using h
        rcases List.mem_cons.mp he with rfl | hm
        · rfl
        · exact ih _ r.1 r.2 (by rw [hc]) e hm
    · obtain ⟨rfl, rfl⟩ := by simpa using h
      simp at he

/-- When the containment-removal loop exits, the graph reports no
containment. -/
theorem containLoop_post (ops : SGOps G) :
    ∀ fuel g g' t, containLoop ops fuel g = some (g', t) →
      ops.hasContainment g' = false := by
  intro fuel
  induction fuel with
  | zero =>
    intro g g' t h
    simp only [containLoop] at h
    split at h
    · exact absurd h (by simp)
    · rename_i hcc
      obtain ⟨rfl, rfl⟩ := by simpa using h
      simpa using hcc
  | succ n ih =>
    intro g g' t h
    simp only [containLoop] at h
    split at h
    · cases hc : containLoop ops n (ops.containVisit g).1 with
      | none => rw [hc] at h; exact absurd h (by simp)
      | some r =>
        rw [hc] at h
        obtain ⟨rfl, rfl⟩ := by simpa using h
        exact ih _ r.1 r.2 (by rw [hc])
    · rename_i hcc
      obtain ⟨rfl, rfl⟩ := by simpa using h
      simpa using hcc

/-- The trace of a fixed-rounds visitor loop consists of exactly `n`
events of the given kind. -/
theorem roundsVisits_map_kind (f : G → G × Bool) (k : EvKind) :
    ∀ n g, ((roundsVisits f k n g).2).map Ev.kind = List.replicate n k := by
  intro n
  induction n with
  | zero => intro g; simp [roundsVisits]
  | succ m ih => intro g; simp [roundsVisits, ih, List.replicate_succ]

/-- Every event of a fixed-rounds visitor trace has the given kind. -/
theorem roundsVisits_kinds (f : G → G × Bool) (k : EvKind) (n : Nat) (g : G) :
    ∀ e ∈ (roundsVisits f k n g).2, e.kind = k := by
  intro e he
  have h := roundsVisits_map_kind f k n g
  have : e.kind ∈ (((roundsVisits f k n g).2).map Ev.kind) := List.mem_map_of_mem _ he
  rw [h] at this
  exact List.eq_of_mem_replicate this

/-- The length of a fixed-rounds visitor trace is the round count. -/
theorem roundsVisits_length (f : G → G × Bool) (k : EvKind) (n : Nat) (g : G) :
    ((roundsVisits f k n g).2).length = n := by
  have h := roundsVisits_map_kind f k n g
  have := congrArg List.length h
  simpa using this

/-- Every event of a small-repeat loop trace is a small-repeat visit. -/
theorem smallRepeatLoop_kinds (ops : SGOps G) (len : Int) :
    ∀ fuel g g' t, smallRepeatLoop ops len fuel g = some (g', t) →
      ∀ e ∈ t, e.kind = EvKind.visitSmallRepeat := by
  intro fuel
  induction fuel with
  | zero => intro g g' t h; exact absurd h (by simp [smallRepeatLoop])
  | succ n ih =>
    intro g g' t h e he
    simp only [smallRepeatLoop] at h
    split at h
    · cases hc : smallRepeatLoop ops len n (ops.smallRepeatVisit len g).1 with
      | none => rw [hc] at h; exact absurd h (by simp)
      | some r =>
        rw [hc] at h
        obtain ⟨rfl, rfl⟩ := by simpa using h
        rcases List.mem_cons.mp he with rfl | hm
        · rfl
        · exact ih _ r.1 r.2 (by rw [hc]) e hm
    · obtain ⟨rfl, rfl⟩ := by simpa using h
      simp at he
      rw [he]

/-- A terminating small-repeat loop performs at least one visit. -/
theorem smallRepeatLoop_ne_nil (ops : SGOps G) (len : Int) :
    ∀ fuel g g' t, smallRepeatLoop ops len fuel g = some (g', t) → t ≠ [] := by
  intro fuel
  induction fuel with
  | zero => intro g g' t h; exact absurd h (by simp [smallRepeatLoop])
  | succ n _ =>
    intro g g' t h
    simp only [smallRepeatLoop] at h
    split at h
    · cases hc : smallRepeatLoop ops len n (ops.smallRepeatVisit len g).1 with
      | none => rw [hc] at h; exact absurd h (by simp)
      | some r =>
        rw [hc] at h
        obtain ⟨rfl, rfl⟩ := by simpa using h
        simp
    · obtain ⟨rfl, rfl⟩ := by simpa using h
      simp

/-- In a terminating small-repeat loop every application except the last
reported that the graph changed. -/
theorem smallRepeatLoop_dropLast (ops : SGOps G) (len : Int) :
    ∀ fuel g g' t, smallRepeatLoop ops len fuel g = some (g', t) →
      ∀ e ∈ t.dropLast, (ops.smallRepeatVisit len e.pre).2 = true := by
  intro fuel
  induction fuel with
  | zero => intro g g' t h; exact absurd h (by simp [smallRepeatLoop])
  | succ n ih =>
    intro g g' t h e he
    simp only [smallRepeatLoop] at h
    split at h
    · rename_i hcc
      cases hc : smallRepeatLoop ops len n (ops.smallRepeatVisit len g).1 with
      | none => rw [hc] at h; exact absurd h (by simp)
      | some r =>
        rw [hc] at h
        obtain ⟨rfl, rfl⟩ := by simpa using h
        have hne : r.2 ≠ [] := smallRepeatLoop_ne_nil ops len n _ r.1 r.2 (by rw [hc])
        cases hr2 : r.2 with
        | nil => exact absurd hr2 hne
        | cons x xs =>
          rw [hr2] at he
          simp only [List.dropLast_cons₂] at he
          rcases List.mem_cons.mp he with rfl | hm
          · exact hcc
          · exact ih _ r.1 r.2 (by rw [hc]) e (by rw [hr2]; exact hm)
    · obtain ⟨rfl, rfl⟩ := by simpa using h
      simp at he
  
/-- A terminating small-repeat loop ends with an application that
reported no change, and the loop's final state is the state produced by
that last application. -/
theorem smallRepeatLoop_getLast (ops : SGOps G) (len : Int) :
    ∀ fuel g g' t, smallRepeatLoop ops len fuel g = some (g', t) →
      ∃ e, t.getLast? = some e ∧ (ops.smallRepeatVisit len e.pre).2 = false ∧
        g' = (ops.smallRepeatVisit len e.pre).1 := by
  intro fuel
  induction fuel with
  | zero => intro g g' t h; exact absurd h (by simp [smallRepeatLoop])
  | succ n ih =>
    intro g g' t h
    simp only [smallRepeatLoop] at h
    split at h
    · cases hc : smallRepeatLoop ops len n (ops.smallRepeatVisit len g).1 with
      | none => rw [hc] at h; exact absurd h (by simp)
      | some r =>
        rw [hc] at h
        obtain ⟨rfl, rfl⟩ := by simpa using h
        obtain ⟨e, he1, he2, he3⟩ := ih _ r.1 r.2 (by rw [hc])
        have hne : r.2 ≠ [] := smallRepeatLoop_ne_nil ops len n _ r.1 r.2 (by rw [hc])
        refine ⟨e, ?_, he2, he3⟩
        cases hr2 : r.2 with
        | nil => exact absurd hr2 hne
        | cons x xs =>
          rw [hr2] at he1
          simpa [List.getLast?_cons_cons] using he1
    · rename_i hcc
      obtain ⟨rfl, rfl⟩ := by simpa using h
      exact ⟨⟨.visitSmallRepeat, g⟩, rfl, by simpa using hcc, rfl⟩

/-- If no event of a trace satisfies a predicate, filtering removes the
whole trace. -/
theorem filter_kind_nil {q : EvKind → Bool} {t : List (Ev G)}
    (h : ∀ e ∈ t, q e.kind = false) :
    t.filter (fun e => q e.kind) = [] :=
  List.filter_eq_nil_iff.mpr (by intro e he; simp [h e he])

/-- If every event of a trace satisfies a predicate, filtering keeps the
whole trace. -/
theorem filter_kind_all {q : EvKind → Bool} {t : List (Ev G)}
    (h : ∀ e ∈ t, q e.kind = true) :
    t.filter (fun e => q e.kind) = t :=
  List.filter_eq_self.mpr (by intro e he; simp [h e he])

/-- Inversion of `assembleRun`: a terminating run decomposes into the
traces of the source's successive phases with the graph state threaded
through them in program order. -/
theorem assembleRun_inv (ops : SGOps G) (o : Opts) (bv : Bool) (fuel : Nat) (g0 : G)
    (h : (assembleRun ops o bv fuel g0).isSome = true) :
    ∃ g1 tc1 g5 t5 g8 t8,
      containLoop ops fuel g0 = some (g1, tc1) ∧
      remodelPhase ops o fuel (correctPhase ops o (trPhase ops g1).1).1 = some (g5, t5) ∧
      smallRepeatPhase ops o fuel (smoothPhase ops o (trimPhase ops o g5).1).1 = some (g8, t8) ∧
      runTrace ops o bv fuel g0 =
        preTrace o g0 ++ tc1 ++ (trPhase ops g1).2
          ++ validatePhase o (trPhase ops g1).1
          ++ (correctPhase ops o (trPhase ops g1).1).2
          ++ t5
          ++ (trimPhase ops o g5).2
          ++ (smoothPhase ops o (trimPhase ops o g5).1).2
          ++ t8
          ++ (compactPhase ops g8).2
          ++ (bubblePhase ops o (compactPhase ops g8).1).2
          ++ (finalPhase ops o bv (bubblePhase ops o (compactPhase ops g8).1).1).2 := by
  cases hc : containLoop ops fuel g0 with
  | none =>
    simp only [assembleRun, hc, Option.isSome_none] at h
    exact absurd h (by decide)
  | some r1 =>
    obtain ⟨g1, tc1⟩ := r1
    cases hr : remodelPhase ops o fuel (correctPhase ops o (trPhase ops g1).1).1 with
    | none =>
      simp only [assembleRun, hc, hr, Option.isSome_none] at h
      exact absurd h (by decide)
    | some r5 =>
      obtain ⟨g5, t5⟩ := r5
      cases hs : smallRepeatPhase ops o fuel
          (smoothPhase ops o (trimPhase ops o g5).1).1 with
      | none =>
        simp only [assembleRun, hc, hr, hs, Option.isSome_none] at h
        exact absurd h (by decide)
      | some r8 =>
        obtain ⟨g8, t8⟩ := r8
        refine ⟨g1, tc1, g5, t5, g8, t8, rfl, hr, hs, ?_⟩
        simp only [runTrace, assembleRun, hc, hr, hs, Option.map_some', Option.getD_some]

/-- Kinds occurring in the pre-pipeline trace. -/
theorem preTrace_kinds (o : Opts) (g : G) :
    ∀ e ∈ preTrace o g, e.kind = EvKind.visitStats ∨
      e.kind = EvKind.visitDebugCompare ∨ e.kind = EvKind.visitEdgeStats := by
  intro e he
  unfold preTrace at he
  split_ifs at he <;> simp at he <;> aesop

/-- Kinds occurring in the transitive-reduction phase trace. -/
theorem trPhase_kinds (ops : SGOps G) (g : G) :
    ∀ e ∈ (trPhase ops g).2, e.kind = EvKind.visitStats ∨ e.kind = EvKind.visitTR := by
  intro e he
  unfold trPhase at he
  simp at he
  aesop

/-- Kinds occurring in the validation phase trace. -/
theorem validatePhase_kinds (o : Opts) (g : G) :
    ∀ e ∈ validatePhase o g, e.kind = EvKind.visitValidate ∨
      e.kind = EvKind.visitStats := by
  intro e he
  unfold validatePhase at he
  split_ifs at he <;> simp at he <;> aesop

/-- Kinds occurring in the error-correction phase trace. -/
theorem correctPhase_kinds (ops : SGOps G) (o : Opts) (g : G) :
    ∀ e ∈ (correctPhase ops o g).2, e.kind = EvKind.visitErrorCorrect ∨
      e.kind = EvKind.visitFastaFile "correctedReads.fa" ∨
      e.kind = EvKind.writeASQG "afterEC.asqg.gz" := by
  intro e he
  unfold correctPhase at he
  split_ifs at he <;> simp at he <;> aesop

/-- Kinds occurring in the remodel phase trace. -/
theorem remodelPhase_kinds (ops : SGOps G) (o : Opts) (fuel : Nat) (g g' : G)
    (t : List (Ev G)) (h : remodelPhase ops o fuel g = some (g', t)) :
    ∀ e ∈ t, e.kind = EvKind.visitRemodel ∨
      e.kind = EvKind.writeASQG "afterRM.asqg.gz" ∨
      e.kind = EvKind.visitContain ∨ e.kind = EvKind.visitTR ∨
      e.kind = EvKind.visitStats := by
  intro e he
  unfold remodelPhase at h
  split_ifs at h
  · cases hc : containLoop ops fuel (ops.remodelVisit g).1 with
    | none => rw [hc] at h; exact absurd h (by simp)
    | some r =>
      rw [hc] at h
      obtain ⟨rfl, rfl⟩ := by simpa using h
      have hk := containLoop_kinds ops fuel _ r.1 r.2 (by rw [hc])
      simp only [List.mem_cons] at he
      rcases he with rfl | rfl | hm
      · simp
      · simp
      · rcases List.mem_append.mp hm with h4 | h5
        · have := hk e h4; simp [this]
        · simp at h5; rcases h5 with rfl | rfl <;> simp
  · obtain ⟨rfl, rfl⟩ := by simpa using h
    simp at he

/-- Kinds occurring in the trimming phase trace. -/
theorem trimPhase_kinds (ops : SGOps G) (o : Opts) (g : G) :
    ∀ e ∈ (trimPhase ops o g).2, e.kind = EvKind.visitTrim := by
  intro e he
  unfold trimPhase at he
  split_ifs at he
  · exact roundsVisits_kinds _ _ _ _ e he
  · simp at he

/-- Kinds occurring in the smoothing phase trace. -/
theorem smoothPhase_kinds (ops : SGOps G) (o : Opts) (g : G) :
    ∀ e ∈ (smoothPhase ops o g).2, e.kind = EvKind.visitSmoothing := by
  intro e he
  unfold smoothPhase at he
  split_ifs at he
  · exact roundsVisits_kinds _ _ _ _ e he
  · simp at he

/-- Kinds occurring in the small-repeat phase trace. -/
theorem smallRepeatPhase_kinds (ops : SGOps G) (o : Opts) (fuel : Nat) (g g' : G)
    (t : List (Ev G)) (h : smallRepeatPhase ops o fuel g = some (g', t)) :
    ∀ e ∈ t, e.kind = EvKind.visitSmallRepeat ∨ e.kind = EvKind.visitStats := by
  intro e he
  unfold smallRepeatPhase at h
  split_ifs at h
  · cases hc : smallRepeatLoop ops o.resolveSmallRepeatLen fuel g with
    | none => rw [hc] at h; exact absurd h (by simp)
    | some r =>
      rw [hc] at h
      obtain ⟨rfl, rfl⟩ := by simpa using h
      have hk := smallRepeatLoop_kinds ops o.resolveSmallRepeatLen fuel _ r.1 r.2 (by rw [hc])
      rcases List.mem_append.mp he with h1 | h2
      · exact Or.inl (hk e h1)
      · simp at h2; simp [h2]
  · obtain ⟨rfl, rfl⟩ := by simpa using h
    simp at he

/-- Kinds occurring in the compaction phase trace. -/
theorem compactPhase_kinds (ops : SGOps G) (g : G) :
    ∀ e ∈ (compactPhase ops g).2, e.kind = EvKind.writeASQG "postmod.asqg.gz" ∨
      e.kind = EvKind.visitStats ∨ e.kind = EvKind.graphSimplify := by
  intro e he
  unfold compactPhase at he
  simp at he
  aesop

/-- Kinds occurring in the bubble phase trace. -/
theorem bubblePhase_kinds (ops : SGOps G) (o : Opts) (g : G) :
    ∀ e ∈ (bubblePhase ops o g).2, e.kind = EvKind.visitBubble ∨
      e.kind = EvKind.graphSimplify := by
  intro e he
  unfold bubblePhase at he
  split_ifs at he
  · rcases List.mem_append.mp he with h1 | h2
    · exact Or.inl (roundsVisits_kinds _ _ _ _ e h1)
    · simp at h2; simp [h2]
  · simp at he

/-- Kinds occurring in the final phase trace. -/
theorem finalPhase_kinds (ops : SGOps G) (o : Opts) (bv : Bool) (g : G) :
    ∀ e ∈ (finalPhase ops o bv g).2, e.kind = EvKind.visitStats ∨
      e.kind = EvKind.graphValidate ∨ e.kind = EvKind.renameVerts "contig-" ∨
      e.kind = EvKind.writeDot "final.dot" ∨ e.kind = EvKind.visitFastaFile o.outFile ∨
      e.kind = EvKind.writeASQG o.asqgOutfile := by
  intro e he
  unfold finalPhase at he
  split_ifs at he <;> simp at he <;> aesop

/-- A concrete interpretation of the graph interface over `Nat`, used to
witness the pipeline theorems on an executable run: the state counts a
notional odd-parity containment marker, the containment visitor clears
it in one step, and the small-repeat visitor reports change until the
state is a multiple of 5. -/
def natOps : SGOps Nat where
  hasContainment g := decide (g % 2 = 1)
  containVisit g := (g + 1, true)
  trVisit g := (g, true)
  errorCorrectVisit g := (g + 10, true)
  remodelVisit g := (g + 1, true)
  trimVisit g := (g, true)
  smoothingVisit g := (g, false)
  smallRepeatVisit _ g := (g + 1, decide (g % 5 ≠ 0))
  bubbleVisit g := (g, true)
  simplify g := g
  renameVertices _ g := g

/-- A concrete option state exercising every optional stage. -/
def wOpts : Opts :=
  { initOpts with
      outFile := "contigs.fa"
      asqgFile := "reads.asqg"
      asqgOutfile := "final.asqg"
      bCorrectReads := true
      bRemodelGraph := true
      bSmoothGraph := true
      resolveSmallRepeatLen := 5
      numTrimRounds := 2
      numBubbleRounds := 3
      bValidate := true }

/-- The transitive-reduction event inside the remodel phase is applied
to a containment-free graph (it directly follows the phase's
containment-removal fixed point). -/
theorem remodelPhase_tr_pre (ops : SGOps G) (o : Opts) (fuel : Nat) (g g' : G)
    (t : List (Ev G)) (h : remodelPhase ops o fuel g = some (g', t)) :
    ∀ e ∈ t, e.kind = EvKind.visitTR → ops.hasContainment e.pre = false := by
  intro e he hk
  unfold remodelPhase at h
  split_ifs at h
  · cases hc : containLoop ops fuel (ops.remodelVisit g).1 with
    | none => rw [hc] at h; exact absurd h (by simp)
    | some r =>
      rw [hc] at h
      obtain ⟨rfl, rfl⟩ := by simpa using h
      have hpost := containLoop_post ops fuel _ r.1 r.2 (by rw [hc])
      have hkk := containLoop_kinds ops fuel _ r.1 r.2 (by rw [hc])
      simp only [List.mem_cons] at he
      rcases he with rfl | rfl | hm
      · simp at hk
      · simp at hk
      · rcases List.mem_append.mp hm with h4 | h5
        · have hck := hkk e h4
          rw [hck] at hk
          exact absurd hk (by decide)
        · simp at h5
          rcases h5 with rfl | rfl
          · exact hpost
          · simp at hk
  · obtain ⟨rfl, rfl⟩ := by simpa using h
    simp at he

/-- C1: in every terminating run of the assemble pipeline, the
transitive-reduction visitor is only ever invoked on a graph that
reports no containment: each transitive-reduction event's pre-state
satisfies `hasContainment = false`, because each such event directly
follows a containment-removal fixed point. -/
theorem assemble_tr_containment_free (ops : SGOps G) (o : Opts) (bv : Bool)
    (fuel : Nat) (g0 : G) (h : (assembleRun ops o bv fuel g0).isSome = true) :
    (runTrace ops o bv fuel g0).all
      (fun e => !(kTR e.kind) || !(ops.hasContainment e.pre)) = true := by
  obtain ⟨g1, tc1, g5, t5, g8, t8, hc, hr, hs, htr⟩ := assembleRun_inv ops o bv fuel g0 h
  rw [List.all_eq_true]
  intro e he
  rw [htr] at he
  simp only [List.mem_append] at he
  have hpost := containLoop_post ops fuel g0 g1 tc1 hc
  rcases he with he | he
  rcases he with he | he
  rcases he with he | he
  rcases he with he | he
  rcases he with he | he
  rcases he with he | he
  rcases he with he | he
  rcases he with he | he
  rcases he with he | he
  rcases he with he | he
  rcases he with he | he
  · rcases preTrace_kinds o g0 e he with hk | hk | hk <;> simp [hk, kTR]
  · have hk := containLoop_kinds ops fuel g0 g1 tc1 hc e he
    simp [hk, kTR]
  · simp only [trPhase, List.mem_cons, List.not_mem_nil, or_false] at he
    rcases he with rfl | rfl
    · simp [kTR]
    · simp [kTR, hpost]
  · rcases validatePhase_kinds o (trPhase ops g1).1 e he with hk | hk <;> simp [hk, kTR]
  · rcases correctPhase_kinds ops o (trPhase ops g1).1 e he with hk | hk | hk <;>
      simp [hk, kTR]
  · have htrp := remodelPhase_tr_pre ops o fuel _ g5 t5 hr e he
    rcases remodelPhase_kinds ops o fuel _ g5 t5 hr e he with hk | hk | hk | hk | hk
    · simp [hk, kTR]
    · simp [hk, kTR]
    · simp [hk, kTR]
    · simp [hk, kTR, htrp hk]
    · simp [hk, kTR]
  · have hk := trimPhase_kinds ops o g5 e he
    simp [hk, kTR]
  · have hk := smoothPhase_kinds ops o (trimPhase ops o g5).1 e he
    simp [hk, kTR]
  · rcases smallRepeatPhase_kinds ops o fuel _ g8 t8 hs e he with hk | hk <;> simp [hk, kTR]
  · rcases compactPhase_kinds ops g8 e he with hk | hk | hk <;> simp [hk, kTR]
  · rcases bubblePhase_kinds ops o (compactPhase ops g8).1 e he with hk | hk <;>
      simp [hk, kTR]
  · rcases finalPhase_kinds ops o bv (bubblePhase ops o (compactPhase ops g8).1).1 e he with
      hk | hk | hk | hk | hk | hk <;> simp [hk, kTR]

/-- Witness for C1: the property evaluated on a concrete terminating
run exercising both transitive-reduction call sites. -/
theorem assemble_tr_containment_free_witness :
    (runTrace natOps wOpts true 20 3).all
      (fun e => !(kTR e.kind) || !(natOps.hasContainment e.pre)) = true :=
  assemble_tr_containment_free natOps wOpts true 20 3 (by decide)

/-- C2: in every terminating run, the simplify/bubble events of the
trace are exactly: one path compaction (`simplify`), then — if and only
if the configured bubble-round count is positive — exactly that many
bubble visits followed by a second compaction. -/
theorem assemble_compact_then_bubbles (ops : SGOps G) (o : Opts) (bv : Bool)
    (fuel : Nat) (g0 : G) (h : (assembleRun ops o bv fuel g0).isSome = true) :
    ((runTrace ops o bv fuel g0).filter (fun e => kSB e.kind)).map Ev.kind =
      EvKind.graphSimplify ::
        (if 0 < o.numBubbleRounds then
          List.replicate o.numBubbleRounds.toNat EvKind.visitBubble
            ++ [EvKind.graphSimplify]
        else []) := by
  obtain ⟨g1, tc1, g5, t5, g8, t8, hc, hr, hs, htr⟩ := assembleRun_inv ops o bv fuel g0 h
  have e1 : (preTrace o g0).filter (fun e => kSB e.kind) = [] := by
    apply filter_kind_nil
    intro e he
    rcases preTrace_kinds o g0 e he with hk | hk | hk <;> simp [hk, kSB, kSimplify, kBubble]
  have e2 : tc1.filter (fun e => kSB e.kind) = [] := by
    apply filter_kind_nil
    intro e he
    simp [containLoop_kinds ops fuel g0 g1 tc1 hc e he, kSB, kSimplify, kBubble]
  have e3 : (trPhase ops g1).2.filter (fun e => kSB e.kind) = [] := by
    apply filter_kind_nil
    intro e he
    rcases trPhase_kinds ops g1 e he with hk | hk <;> simp [hk, kSB, kSimplify, kBubble]
  have e4 : (validatePhase o (trPhase ops g1).1).filter (fun e => kSB e.kind) = [] := by
    apply filter_kind_nil
    intro e he
    rcases validatePhase_kinds o _ e he with hk | hk <;> simp [hk, kSB, kSimplify, kBubble]
  have e5 : (correctPhase ops o (trPhase ops g1).1).2.filter (fun e => kSB e.kind) = [] := by
    apply filter_kind_nil
    intro e he
    rcases correctPhase_kinds ops o _ e he with hk | hk | hk <;>
      simp [hk, kSB, kSimplify, kBubble]
  have e6 : t5.filter (fun e => kSB e.kind) = [] := by
    apply filter_kind_nil
    intro e he
    rcases remodelPhase_kinds ops o fuel _ g5 t5 hr e he with hk | hk | hk | hk | hk <;>
      simp [hk, kSB, kSimplify, kBubble]
  have e7 : (trimPhase ops o g5).2.filter (fun e => kSB e.kind) = [] := by
    apply filter_kind_nil
    intro e he
    simp [trimPhase_kinds ops o g5 e he, kSB, kSimplify, kBubble]
  have e8 : (smoothPhase ops o (trimPhase ops o g5).1).2.filter (fun e => kSB e.kind) = [] := by
    apply filter_kind_nil
    intro e he
    simp [smoothPhase_kinds ops o _ e he, kSB, kSimplify, kBubble]
  have e9 : t8.filter (fun e => kSB e.kind) = [] := by
    apply filter_kind_nil
    intro e he
    rcases smallRepeatPhase_kinds ops o fuel _ g8 t8 hs e he with hk | hk <;>
      simp [hk, kSB, kSimplify, kBubble]
  have e10 : (compactPhase ops g8).2.filter (fun e => kSB e.kind) =
      [⟨EvKind.graphSimplify, g8⟩] := by
    simp [compactPhase, kSB, kSimplify, kBubble]
  have e12 : (finalPhase ops o bv (bubblePhase ops o (compactPhase ops g8).1).1).2.filter
      (fun e => kSB e.kind) = [] := by
    apply filter_kind_nil
    intro e he
    rcases finalPhase_kinds ops o bv _ e he with hk | hk | hk | hk | hk | hk <;>
      simp [hk, kSB, kSimplify, kBubble]
  rw [htr]
  simp only [List.filter_append, e1, e2, e3, e4, e5, e6, e7, e8, e9, e10, e12,
    List.nil_append, List.append_nil]
  unfold bubblePhase
  split_ifs with hb
  · rw [List.filter_append]
    rw [filter_kind_all ?all]
    case all =>
      intro e he
      simp [roundsVisits_kinds _ _ _ _ e he, kSB, kBubble]
    simp [kSB, kSimplify, kBubble, roundsVisits_map_kind]
  · simp

/-- Witness for C2: the property evaluated on a concrete terminating
run with three configured bubble rounds. -/
theorem assemble_compact_then_bubbles_witness :
    ((runTrace natOps wOpts true 20 3).filter (fun e => kSB e.kind)).map Ev.kind =
      EvKind.graphSimplify ::
        (if 0 < wOpts.numBubbleRounds then
          List.replicate wOpts.numBubbleRounds.toNat EvKind.visitBubble
            ++ [EvKind.graphSimplify]
        else []) :=
  assemble_compact_then_bubbles natOps wOpts true 20 3 (by decide)

/-- C4: in every terminating run with a positive configured trim-round
count, the trimming visitor is applied exactly that many times — the
model never consults the visitor's changed flag, so there is no early
exit on convergence and no extra round (the bound holds for every
interpretation of the trim visitor). -/
theorem assemble_trim_rounds_exact (ops : SGOps G) (o : Opts) (bv : Bool)
    (fuel : Nat) (g0 : G) (h : (assembleRun ops o bv fuel g0).isSome = true)
    (hn : 0 < o.numTrimRounds) :
    ((runTrace ops o bv fuel g0).filter (fun e => kTrim e.kind)).length =
      o.numTrimRounds.toNat := by
  obtain ⟨g1, tc1, g5, t5, g8, t8, hc, hr, hs, htr⟩ := assembleRun_inv ops o bv fuel g0 h
  have e1 : (preTrace o g0).filter (fun e => kTrim e.kind) = [] := by
    apply filter_kind_nil
    intro e he
    rcases preTrace_kinds o g0 e he with hk | hk | hk <;> simp [hk, kTrim]
  have e2 : tc1.filter (fun e => kTrim e.kind) = [] := by
    apply filter_kind_nil
    intro e he
    simp [containLoop_kinds ops fuel g0 g1 tc1 hc e he, kTrim]
  have e3 : (trPhase ops g1).2.filter (fun e => kTrim e.kind) = [] := by
    apply filter_kind_nil
    intro e he
    rcases trPhase_kinds ops g1 e he with hk | hk <;> simp [hk, kTrim]
  have e4 : (validatePhase o (trPhase ops g1).1).filter (fun e => kTrim e.kind) = [] := by
    apply filter_kind_nil
    intro e he
    rcases validatePhase_kinds o _ e he with hk | hk <;> simp [hk, kTrim]
  have e5 : (correctPhase ops o (trPhase ops g1).1).2.filter (fun e => kTrim e.kind) = [] := by
    apply filter_kind_nil
    intro e he
    rcases correctPhase_kinds ops o _ e he with hk | hk | hk <;> simp [hk, kTrim]
  have e6 : t5.filter (fun e => kTrim e.kind) = [] := by
    apply filter_kind_nil
    intro e he
    rcases remodelPhase_kinds ops o fuel _ g5 t5 hr e he with hk | hk | hk | hk | hk <;>
      simp [hk, kTrim]
  have e7 : (trimPhase ops o g5).2.filter (fun e => kTrim e.kind) = (trimPhase ops o g5).2 := by
    apply filter_kind_all
    intro e he
    simp [trimPhase_kinds ops o g5 e he, kTrim]
  have e8 : (smoothPhase ops o (trimPhase ops o g5).1).2.filter (fun e => kTrim e.kind) = [] := by
    apply filter_kind_nil
    intro e he
    simp [smoothPhase_kinds ops o _ e he, kTrim]
  have e9 : t8.filter (fun e => kTrim e.kind) = [] := by
    apply filter_kind_nil
    intro e he
    rcases smallRepeatPhase_kinds ops o fuel _ g8 t8 hs e he with hk | hk <;> simp [hk, kTrim]
  have e10 : (compactPhase ops g8).2.filter (fun e => kTrim e.kind) = [] := by
    apply filter_kind_nil
    intro e he
    rcases compactPhase_kinds ops g8 e he with hk | hk | hk <;> simp [hk, kTrim]
  have e11 : (bubblePhase ops o (compactPhase ops g8).1).2.filter
      (fun e => kTrim e.kind) = [] := by
    apply filter_kind_nil
    intro e he
    rcases bubblePhase_kinds ops o _ e he with hk | hk <;> simp [hk, kTrim]
  have e12 : (finalPhase ops o bv (bubblePhase ops o (compactPhase ops g8).1).1).2.filter
      (fun e => kTrim e.kind) = [] := by
    apply filter_kind_nil
    intro e he
    rcases finalPhase_kinds ops o bv _ e he with hk | hk | hk | hk | hk | hk <;>
      simp [hk, kTrim]
  rw [htr]
  simp only [List.filter_append, e1, e2, e3, e4, e5, e6, e7, e8, e9, e10, e11, e12,
    List.nil_append, List.append_nil]
  unfold trimPhase
  rw [if_pos hn]
  exact roundsVisits_length ops.trimVisit .visitTrim o.numTrimRounds.toNat g5

/-- Witness for C4: two configured trim rounds produce exactly two trim
events on a concrete run. -/
theorem assemble_trim_rounds_exact_witness :
    0 < wOpts.numTrimRounds ∧
      ((runTrace natOps wOpts true 20 3).filter (fun e => kTrim e.kind)).length =
        wOpts.numTrimRounds.toNat :=
  ⟨by decide, assemble_trim_rounds_exact natOps wOpts true 20 3 (by decide) (by decide)⟩

/-- C5: in every terminating run with smoothing enabled, the smoothing
visitor is applied exactly 4 times (the hardcoded round count),
independently of the visitor's reported convergence. -/
theorem assemble_smoothing_four_rounds (ops : SGOps G) (o : Opts) (bv : Bool)
    (fuel : Nat) (g0 : G) (h : (assembleRun ops o bv fuel g0).isSome = true)
    (hb : o.bSmoothGraph = true) :
    ((runTrace ops o bv fuel g0).filter (fun e => kSmooth e.kind)).length = 4 := by
  obtain ⟨g1, tc1, g5, t5, g8, t8, hc, hr, hs, htr⟩ := assembleRun_inv ops o bv fuel g0 h
  have e1 : (preTrace o g0).filter (fun e => kSmooth e.kind) = [] := by
    apply filter_kind_nil
    intro e he
    rcases preTrace_kinds o g0 e he with hk | hk | hk <;> simp [hk, kSmooth]
  have e2 : tc1.filter (fun e => kSmooth e.kind) = [] := by
    apply filter_kind_nil
    intro e he
    simp [containLoop_kinds ops fuel g0 g1 tc1 hc e he, kSmooth]
  have e3 : (trPhase ops g1).2.filter (fun e => kSmooth e.kind) = [] := by
    apply filter_kind_nil
    intro e he
    rcases trPhase_kinds ops g1 e he with hk | hk <;> simp [hk, kSmooth]
  have e4 : (validatePhase o (trPhase ops g1).1).filter (fun e => kSmooth e.kind) = [] := by
    apply filter_kind_nil
    intro e he
    rcases validatePhase_kinds o _ e he with hk | hk <;> simp [hk, kSmooth]
  have e5 : (correctPhase ops o (trPhase ops g1).1).2.filter (fun e => kSmooth e.kind) = [] := by
    apply filter_kind_nil
    intro e he
    rcases correctPhase_kinds ops o _ e he with hk | hk | hk <;> simp [hk, kSmooth]
  have e6 : t5.filter (fun e => kSmooth e.kind) = [] := by
    apply filter_kind_nil
    intro e he
    rcases remodelPhase_kinds ops o fuel _ g5 t5 hr e he with hk | hk | hk | hk | hk <;>
      simp [hk, kSmooth]
  have e7 : (trimPhase ops o g5).2.filter (fun e => kSmooth e.kind) = [] := by
    apply filter_kind_nil
    intro e he
    simp [trimPhase_kinds ops o g5 e he, kSmooth]
  have e8 : (smoothPhase ops o (trimPhase ops o g5).1).2.filter (fun e => kSmooth e.kind) =
      (smoothPhase ops o (trimPhase ops o g5).1).2 := by
    apply filter_kind_all
    intro e he
    simp [smoothPhase_kinds ops o _ e he, kSmooth]
  have e9 : t8.filter (fun e => kSmooth e.kind) = [] := by
    apply filter_kind_nil
    intro e he
    rcases smallRepeatPhase_kinds ops o fuel _ g8 t8 hs e he with hk | hk <;>
      simp [hk, kSmooth]
  have e10 : (compactPhase ops g8).2.filter (fun e => kSmooth e.kind) = [] := by
    apply filter_kind_nil
    intro e he
    rcases compactPhase_kinds ops g8 e he with hk | hk | hk <;> simp [hk, kSmooth]
  have e11 : (bubblePhase ops o (compactPhase ops g8).1).2.filter
      (fun e => kSmooth e.kind) = [] := by
    apply filter_kind_nil
    intro e he
    rcases bubblePhase_kinds ops o _ e he with hk | hk <;> simp [hk, kSmooth]
  have e12 : (finalPhase ops o bv (bubblePhase ops o (compactPhase ops g8).1).1).2.filter
      (fun e => kSmooth e.kind) = [] := by
    apply filter_kind_nil
    intro e he
    rcases finalPhase_kinds ops o bv _ e he with hk | hk | hk | hk | hk | hk <;>
      simp [hk, kSmooth]
  rw [htr]
  simp only [List.filter_append, e1, e2, e3, e4, e5, e6, e7, e8, e9, e10, e11, e12,
    List.nil_append, List.append_nil]
  unfold smoothPhase
  rw [if_pos hb]
  exact roundsVisits_length ops.smoothingVisit .visitSmoothing 4 (trimPhase ops o g5).1

/-- Witness for C5: smoothing enabled on a concrete run yields exactly
four smoothing events. -/
theorem assemble_smoothing_four_rounds_witness :
    wOpts.bSmoothGraph = true ∧
      ((runTrace natOps wOpts true 20 3).filter (fun e => kSmooth e.kind)).length = 4 :=
  ⟨by decide, assemble_smoothing_four_rounds natOps wOpts true 20 3 (by decide) (by decide)⟩

/-- C6: in every terminating run, small-repeat resolution happens if and
only if a resolution threshold is configured (`resolve-small` length
`≥ 0`); when it runs, its events are exactly one terminating pass of the
fixed-point loop: at least one application, every application before the
last reported a change, and the last application reported no change. -/
theorem assemble_small_repeat_fixed_point (ops : SGOps G) (o : Opts) (bv : Bool)
    (fuel : Nat) (g0 : G) (h : (assembleRun ops o bv fuel g0).isSome = true) :
    (o.resolveSmallRepeatLen < 0 →
      (runTrace ops o bv fuel g0).filter (fun e => kSmallRepeat e.kind) = []) ∧
    (0 ≤ o.resolveSmallRepeatLen →
      ∃ gIn gOut ts,
        smallRepeatLoop ops o.resolveSmallRepeatLen fuel gIn = some (gOut, ts) ∧
        (runTrace ops o bv fuel g0).filter (fun e => kSmallRepeat e.kind) = ts ∧
        ts ≠ [] ∧
        (∀ e ∈ ts.dropLast, (ops.smallRepeatVisit o.resolveSmallRepeatLen e.pre).2 = true) ∧
        ∃ elast, ts.getLast? = some elast ∧
          (ops.smallRepeatVisit o.resolveSmallRepeatLen elast.pre).2 = false) := by
  obtain ⟨g1, tc1, g5, t5, g8, t8, hc, hr, hs, htr⟩ := assembleRun_inv ops o bv fuel g0 h
  have e1 : (preTrace o g0).filter (fun e => kSmallRepeat e.kind) = [] := by
    apply filter_kind_nil
    intro e he
    rcases preTrace_kinds o g0 e he with hk | hk | hk <;> simp [hk, kSmallRepeat]
  have e2 : tc1.filter (fun e => kSmallRepeat e.kind) = [] := by
    apply filter_kind_nil
    intro e he
    simp [containLoop_kinds ops fuel g0 g1 tc1 hc e he, kSmallRepeat]
  have e3 : (trPhase ops g1).2.filter (fun e => kSmallRepeat e.kind) = [] := by
    apply filter_kind_nil
    intro e he
    rcases trPhase_kinds ops g1 e he with hk | hk <;> simp [hk, kSmallRepeat]
  have e4 : (validatePhase o (trPhase ops g1).1).filter (fun e => kSmallRepeat e.kind) = [] := by
    apply filter_kind_nil
    intro e he
    rcases validatePhase_kinds o _ e he with hk | hk <;> simp [hk, kSmallRepeat]
  have e5 : (correctPhase ops o (trPhase ops g1).1).2.filter
      (fun e => kSmallRepeat e.kind) = [] := by
    apply filter_kind_nil
    intro e he
    rcases correctPhase_kinds ops o _ e he with hk | hk | hk <;> simp [hk, kSmallRepeat]
  have e6 : t5.filter (fun e => kSmallRepeat e.kind) = [] := by
    apply filter_kind_nil
    intro e he
    rcases remodelPhase_kinds ops o fuel _ g5 t5 hr e he with hk | hk | hk | hk | hk <;>
      simp [hk, kSmallRepeat]
  have e7 : (trimPhase ops o g5).2.filter (fun e => kSmallRepeat e.kind) = [] := by
    apply filter_kind_nil
    intro e he
    simp [trimPhase_kinds ops o g5 e he, kSmallRepeat]
  have e8 : (smoothPhase ops o (trimPhase ops o g5).1).2.filter
      (fun e => kSmallRepeat e.kind) = [] := by
    apply filter_kind_nil
    intro e he
    simp [smoothPhase_kinds ops o _ e he, kSmallRepeat]
  have e10 : (compactPhase ops g8).2.filter (fun e => kSmallRepeat e.kind) = [] := by
    apply filter_kind_nil
    intro e he
    rcases compactPhase_kinds ops g8 e he with hk | hk | hk <;> simp [hk, kSmallRepeat]
  have e11 : (bubblePhase ops o (compactPhase ops g8).1).2.filter
      (fun e => kSmallRepeat e.kind) = [] := by
    apply filter_kind_nil
    intro e he
    rcases bubblePhase_kinds ops o _ e he with hk | hk <;> simp [hk, kSmallRepeat]
  have e12 : (finalPhase ops o bv (bubblePhase ops o (compactPhase ops g8).1).1).2.filter
      (fun e => kSmallRepeat e.kind) = [] := by
    apply filter_kind_nil
    intro e he
    rcases finalPhase_kinds ops o bv _ e he with hk | hk | hk | hk | hk | hk <;>
      simp [hk, kSmallRepeat]
  have hbase : (runTrace ops o bv fuel g0).filter (fun e => kSmallRepeat e.kind) =
      t8.filter (fun e => kSmallRepeat e.kind) := by
    rw [htr]
    simp only [List.filter_append, e1, e2, e3, e4, e5, e6, e7, e8, e10, e11, e12,
      List.nil_append, List.append_nil]
  constructor
  · intro hneg
    unfold smallRepeatPhase at hs
    rw [if_neg (not_le.mpr hneg)] at hs
    obtain ⟨rfl, rfl⟩ := by simpa using hs
    simpa using hbase
  · intro hpos
    unfold smallRepeatPhase at hs
    rw [if_pos hpos] at hs
    cases hl : smallRepeatLoop ops o.resolveSmallRepeatLen fuel
        (smoothPhase ops o (trimPhase ops o g5).1).1 with
    | none => rw [hl] at hs; exact absurd hs (by simp)
    | some r =>
      rw [hl] at hs
      obtain ⟨rfl, rfl⟩ := by simpa using hs
      refine ⟨(smoothPhase ops o (trimPhase ops o g5).1).1, r.1, r.2, by rw [hl], ?_, ?_, ?_, ?_⟩
      · rw [hbase, List.filter_append]
        rw [filter_kind_all ?all]
        case all =>
          intro e he
          simp [smallRepeatLoop_kinds ops o.resolveSmallRepeatLen fuel _ r.1 r.2
            (by rw [hl]) e he, kSmallRepeat]
        simp [kSmallRepeat]
      · exact smallRepeatLoop_ne_nil ops o.resolveSmallRepeatLen fuel _ r.1 r.2 (by rw [hl])
      · exact smallRepeatLoop_dropLast ops o.resolveSmallRepeatLen fuel _ r.1 r.2 (by rw [hl])
      · obtain ⟨e, he1, he2, _⟩ :=
          smallRepeatLoop_getLast ops o.resolveSmallRepeatLen fuel _ r.1 r.2 (by rw [hl])
        exact ⟨e, he1, he2⟩

/-- Witness for C6: the property instantiated on a concrete run with
threshold 5 configured. -/
theorem assemble_small_repeat_fixed_point_witness :
    (wOpts.resolveSmallRepeatLen < 0 →
      (runTrace natOps wOpts true 20 3).filter (fun e => kSmallRepeat e.kind) = []) ∧
    (0 ≤ wOpts.resolveSmallRepeatLen →
      ∃ gIn gOut ts,
        smallRepeatLoop natOps wOpts.resolveSmallRepeatLen 20 gIn = some (gOut, ts) ∧
        (runTrace natOps wOpts true 20 3).filter (fun e => kSmallRepeat e.kind) = ts ∧
        ts ≠ [] ∧
        (∀ e ∈ ts.dropLast, (natOps.smallRepeatVisit wOpts.resolveSmallRepeatLen e.pre).2 = true) ∧
        ∃ elast, ts.getLast? = some elast ∧
          (natOps.smallRepeatVisit wOpts.resolveSmallRepeatLen elast.pre).2 = false) :=
  assemble_small_repeat_fixed_point natOps wOpts true 20 3 (by decide)

/-- C3: in every terminating run with remodelling enabled, the
containment/transitive-reduction/remodel events of the trace are: the
initial containment-removal run, one transitive-reduction pass, then the
remodel visitor, then a containment-removal run that is a terminating
fixed-point loop started from the graph produced by the remodel visitor
(so its final state reports no containment), then exactly one more
transitive-reduction pass applied to that containment-free state. -/
theorem assemble_remodel_repeats_stages (ops : SGOps G) (o : Opts) (bv : Bool)
    (fuel : Nat) (g0 : G) (h : (assembleRun ops o bv fuel g0).isSome = true)
    (hRm : o.bRemodelGraph = true) :
    ∃ c1 gA gR tc2 gB,
      (runTrace ops o bv fuel g0).filter (fun e => kRCT e.kind) =
        c1 ++ ⟨EvKind.visitTR, gA⟩ :: ⟨EvKind.visitRemodel, gR⟩ ::
          (tc2 ++ [⟨EvKind.visitTR, gB⟩]) ∧
      (∀ e ∈ c1, e.kind = EvKind.visitContain) ∧
      containLoop ops fuel (ops.remodelVisit gR).1 = some (gB, tc2) ∧
      ops.hasContainment gB = false := by
  obtain ⟨g1, tc1, g5, t5, g8, t8, hc, hr, hs, htr⟩ := assembleRun_inv ops o bv fuel g0 h
  have e1 : (preTrace o g0).filter (fun e => kRCT e.kind) = [] := by
    apply filter_kind_nil
    intro e he
    rcases preTrace_kinds o g0 e he with hk | hk | hk <;> simp [hk, kRCT]
  have e2 : tc1.filter (fun e => kRCT e.kind) = tc1 := by
    apply filter_kind_all
    intro e he
    simp [containLoop_kinds ops fuel g0 g1 tc1 hc e he, kRCT]
  have e3 : (trPhase ops g1).2.filter (fun e => kRCT e.kind) = [⟨EvKind.visitTR, g1⟩] := by
    simp [trPhase, kRCT]
  have e4 : (validatePhase o (trPhase ops g1).1).filter (fun e => kRCT e.kind) = [] := by
    apply filter_kind_nil
    intro e he
    rcases validatePhase_kinds o _ e he with hk | hk <;> simp [hk, kRCT]
  have e5 : (correctPhase ops o (trPhase ops g1).1).2.filter (fun e => kRCT e.kind) = [] := by
    apply filter_kind_nil
    intro e he
    rcases correctPhase_kinds ops o _ e he with hk | hk | hk <;> simp [hk, kRCT]
  have e7 : (trimPhase ops o g5).2.filter (fun e => kRCT e.kind) = [] := by
    apply filter_kind_nil
    intro e he
    simp [trimPhase_kinds ops o g5 e he, kRCT]
  have e8 : (smoothPhase ops o (trimPhase ops o g5).1).2.filter (fun e => kRCT e.kind) = [] := by
    apply filter_kind_nil
    intro e he
    simp [smoothPhase_kinds ops o _ e he, kRCT]
  have e9 : t8.filter (fun e => kRCT e.kind) = [] := by
    apply filter_kind_nil
    intro e he
    rcases smallRepeatPhase_kinds ops o fuel _ g8 t8 hs e he with hk | hk <;> simp [hk, kRCT]
  have e10 : (compactPhase ops g8).2.filter (fun e => kRCT e.kind) = [] := by
    apply filter_kind_nil
    intro e he
    rcases compactPhase_kinds ops g8 e he with hk | hk | hk <;> simp [hk, kRCT]
  have e11 : (bubblePhase ops o (compactPhase ops g8).1).2.filter
      (fun e => kRCT e.kind) = [] := by
    apply filter_kind_nil
    intro e he
    rcases bubblePhase_kinds ops o _ e he with hk | hk <;> simp [hk, kRCT]
  have e12 : (finalPhase ops o bv (bubblePhase ops o (compactPhase ops g8).1).1).2.filter
      (fun e => kRCT e.kind) = [] := by
    apply filter_kind_nil
    intro e he
    rcases finalPhase_kinds ops o bv _ e he with hk | hk | hk | hk | hk | hk <;>
      simp [hk, kRCT]
  unfold remodelPhase at hr
  rw [if_pos hRm] at hr
  cases hl : containLoop ops fuel
      (ops.remodelVisit (correctPhase ops o (trPhase ops g1).1).1).1 with
  | none => rw [hl] at hr; exact absurd hr (by simp)
  | some r =>
    rw [hl] at hr
    obtain ⟨rfl, rfl⟩ := by simpa using hr
    have hall : r.2.filter (fun e => kRCT e.kind) = r.2 := by
      apply filter_kind_all
      intro e he
      simp [containLoop_kinds ops fuel _ r.1 r.2 (by rw [hl]) e he, kRCT]
    refine ⟨tc1, g1, (correctPhase ops o (trPhase ops g1).1).1, r.2, r.1, ?_, ?_, ?_, ?_⟩
    · rw [htr]
      simp only [List.filter_append, List.filter_cons, e1, e2, e3, e4, e5, e7, e8, e9,
        e10, e11, e12, List.nil_append, List.append_nil]
      simp [List.filter_append, hall, kRCT]
      intro a ha
      simp [containLoop_kinds ops fuel _ r.1 r.2 (by rw [hl]) a ha]
    · exact containLoop_kinds ops fuel g0 g1 tc1 hc
    · rw [hl]
    · exact containLoop_post ops fuel _ r.1 r.2 (by rw [hl])

/-- Witness for C3: the property instantiated on a concrete terminating
run with remodelling enabled. -/
theorem assemble_remodel_repeats_stages_witness :
    ∃ c1 gA gR tc2 gB,
      (runTrace natOps wOpts true 20 3).filter (fun e => kRCT e.kind) =
        c1 ++ ⟨EvKind.visitTR, gA⟩ :: ⟨EvKind.visitRemodel, gR⟩ ::
          (tc2 ++ [⟨EvKind.visitTR, gB⟩]) ∧
      (∀ e ∈ c1, e.kind = EvKind.visitContain) ∧
      containLoop natOps 20 (natOps.remodelVisit gR).1 = some (gB, tc2) ∧
      natOps.hasContainment gB = false :=
  assemble_remodel_repeats_stages natOps wOpts true 20 3 (by decide) (by decide)

/-- C8 (amended): in every terminating run, the structural validation
pass is an optional explicit call, performed exactly once when the
validate flag is set and never otherwise — when set, the single
validation event immediately follows the initial transitive-reduction
pass (it is not performed per stage and not after every mutation; any
remaining transitive-reduction/validation events are the remodel phase's
second reduction pass). -/
theorem assemble_validation_single_explicit (ops : SGOps G) (o : Opts) (bv : Bool)
    (fuel : Nat) (g0 : G) (h : (assembleRun ops o bv fuel g0).isSome = true) :
    ((runTrace ops o bv fuel g0).filter (fun e => kValidate e.kind)).length =
      (if o.bValidate then 1 else 0) ∧
    (o.bValidate = true →
      ∃ gA rest,
        (runTrace ops o bv fuel g0).filter (fun e => kTV e.kind) =
          ⟨EvKind.visitTR, gA⟩ :: ⟨EvKind.visitValidate, (ops.trVisit gA).1⟩ :: rest ∧
        ∀ e ∈ rest, e.kind = EvKind.visitTR) := by
  obtain ⟨g1, tc1, g5, t5, g8, t8, hc, hr, hs, htr⟩ := assembleRun_inv ops o bv fuel g0 h
  have e1v : (preTrace o g0).filter (fun e => kValidate e.kind) = [] := by
    apply filter_kind_nil
    intro e he
    rcases preTrace_kinds o g0 e he with hk | hk | hk <;> simp [hk, kValidate]
  have e1t : (preTrace o g0).filter (fun e => kTV e.kind) = [] := by
    apply filter_kind_nil
    intro e he
    rcases preTrace_kinds o g0 e he with hk | hk | hk <;> simp [hk, kTV]
  have e2v : tc1.filter (fun e => kValidate e.kind) = [] := by
    apply filter_kind_nil
    intro e he
    simp [containLoop_kinds ops fuel g0 g1 tc1 hc e he, kValidate]
  have e2t : tc1.filter (fun e => kTV e.kind) = [] := by
    apply filter_kind_nil
    intro e he
    simp [containLoop_kinds ops fuel g0 g1 tc1 hc e he, kTV]
  have e3v : (trPhase ops g1).2.filter (fun e => kValidate e.kind) = [] := by
    apply filter_kind_nil
    intro e he
    rcases trPhase_kinds ops g1 e he with hk | hk <;> simp [hk, kValidate]
  have e3t : (trPhase ops g1).2.filter (fun e => kTV e.kind) = [⟨EvKind.visitTR, g1⟩] := by
    simp [trPhase, kTV]
  have e5v : (correctPhase ops o (trPhase ops g1).1).2.filter
      (fun e => kValidate e.kind) = [] := by
    apply filter_kind_nil
    intro e he
    rcases correctPhase_kinds ops o _ e he with hk | hk | hk <;> simp [hk, kValidate]
  have e5t : (correctPhase ops o (trPhase ops g1).1).2.filter (fun e => kTV e.kind) = [] := by
    apply filter_kind_nil
    intro e he
    rcases correctPhase_kinds ops o _ e he with hk | hk | hk <;> simp [hk, kTV]
  have e6v : t5.filter (fun e => kValidate e.kind) = [] := by
    apply filter_kind_nil
    intro e he
    rcases remodelPhase_kinds ops o fuel _ g5 t5 hr e he with hk | hk | hk | hk | hk <;>
      simp [hk, kValidate]
  have e7v : (trimPhase ops o g5).2.filter (fun e => kValidate e.kind) = [] := by
    apply filter_kind_nil
    intro e he
    simp [trimPhase_kinds ops o g5 e he, kValidate]
  have e7t : (trimPhase ops o g5).2.filter (fun e => kTV e.kind) = [] := by
    apply filter_kind_nil
    intro e he
    simp [trimPhase_kinds ops o g5 e he, kTV]
  have e8v : (smoothPhase ops o (trimPhase ops o g5).1).2.filter
      (fun e => kValidate e.kind) = [] := by
    apply filter_kind_nil
    intro e he
    simp [smoothPhase_kinds ops o _ e he, kValidate]
  have e8t : (smoothPhase ops o (trimPhase ops o g5).1).2.filter (fun e => kTV e.kind) = [] := by
    apply filter_kind_nil
    intro e he
    simp [smoothPhase_kinds ops o _ e he, kTV]
  have e9v : t8.filter (fun e => kValidate e.kind) = [] := by
    apply filter_kind_nil
    intro e he
    rcases smallRepeatPhase_kinds ops o fuel _ g8 t8 hs e he with hk | hk <;>
      simp [hk, kValidate]
  have e9t : t8.filter (fun e => kTV e.kind) = [] := by
    apply filter_kind_nil
    intro e he
    rcases smallRepeatPhase_kinds ops o fuel _ g8 t8 hs e he with hk | hk <;> simp [hk, kTV]
  have e10v : (compactPhase ops g8).2.filter (fun e => kValidate e.kind) = [] := by
    apply filter_kind_nil
    intro e he
    rcases compactPhase_kinds ops g8 e he with hk | hk | hk <;> simp [hk, kValidate]
  have e10t : (compactPhase ops g8).2.filter (fun e => kTV e.kind) = [] := by
    apply filter_kind_nil
    intro e he
    rcases compactPhase_kinds ops g8 e he with hk | hk | hk <;> simp [hk, kTV]
  have e11v : (bubblePhase ops o (compactPhase ops g8).1).2.filter
      (fun e => kValidate e.kind) = [] := by
    apply filter_kind_nil
    intro e he
    rcases bubblePhase_kinds ops o _ e he with hk | hk <;> simp [hk, kValidate]
  have e11t : (bubblePhase ops o (compactPhase ops g8).1).2.filter
      (fun e => kTV e.kind) = [] := by
    apply filter_kind_nil
    intro e he
    rcases bubblePhase_kinds ops o _ e he with hk | hk <;> simp [hk, kTV]
  have e12v : (finalPhase ops o bv (bubblePhase ops o (compactPhase ops g8).1).1).2.filter
      (fun e => kValidate e.kind) = [] := by
    apply filter_kind_nil
    intro e he
    rcases finalPhase_kinds ops o bv _ e he with hk | hk | hk | hk | hk | hk <;>
      simp [hk, kValidate]
  have e12t : (finalPhase ops o bv (bubblePhase ops o (compactPhase ops g8).1).1).2.filter
      (fun e => kTV e.kind) = [] := by
    apply filter_kind_nil
    intro e he
    rcases finalPhase_kinds ops o bv _ e he with hk | hk | hk | hk | hk | hk <;>
      simp [hk, kTV]
  have e4v : (validatePhase o (trPhase ops g1).1).filter (fun e => kValidate e.kind) =
      (if o.bValidate then [⟨EvKind.visitValidate, (ops.trVisit g1).1⟩] else []) := by
    unfold validatePhase
    split_ifs <;> simp [kValidate, trPhase]
  constructor
  · rw [htr]
    simp only [List.filter_append, e1v, e2v, e3v, e4v, e5v, e6v, e7v, e8v, e9v, e10v,
      e11v, e12v, List.nil_append, List.append_nil]
    split_ifs <;> simp
  · intro hval
    have e4t : (validatePhase o (trPhase ops g1).1).filter (fun e => kTV e.kind) =
        [⟨EvKind.visitValidate, (ops.trVisit g1).1⟩] := by
      unfold validatePhase
      rw [if_pos hval]
      simp [kTV, trPhase]
    refine ⟨g1, t5.filter (fun e => kTV e.kind), ?_, ?_⟩
    · rw [htr]
      simp only [List.filter_append, e1t, e2t, e3t, e4t, e5t, e7t, e8t, e9t, e10t,
        e11t, e12t, List.nil_append, List.append_nil]
      simp
    · intro e he
      have hm := List.mem_of_mem_filter he
      have hq := List.of_mem_filter he
      rcases remodelPhase_kinds ops o fuel _ g5 t5 hr e hm with hk | hk | hk | hk | hk <;>
        simp [hk, kTV] at hq ⊢

/-- Witness for C8 (amended): the property instantiated on a concrete
run with the validate flag set. -/
theorem assemble_validation_single_explicit_witness :
    ((runTrace natOps wOpts true 20 3).filter (fun e => kValidate e.kind)).length =
      (if wOpts.bValidate then 1 else 0) ∧
    (wOpts.bValidate = true →
      ∃ gA rest,
        (runTrace natOps wOpts true 20 3).filter (fun e => kTV e.kind) =
          ⟨EvKind.visitTR, gA⟩ :: ⟨EvKind.visitValidate, (natOps.trVisit gA).1⟩ :: rest ∧
        ∀ e ∈ rest, e.kind = EvKind.visitTR) :=
  assemble_validation_single_explicit natOps wOpts true 20 3 (by decide)

/-- Counterexample for C8 as stated: on a concrete validated run
(`--validate` set) that executes trimming, smoothing, small-repeat
resolution and bubble popping, the structural validation pass runs
exactly once in the whole pipeline, so it is not the case that each
pipeline stage checks its precondition via the structural validation
pass. -/
theorem assemble_per_stage_validation_counterexample :
    wOpts.bValidate = true ∧
    ((runTrace natOps wOpts true 20 3).filter (fun e => kValidate e.kind)).length = 1 ∧
    ((runTrace natOps wOpts true 20 3).filter (fun e => kTrim e.kind)).length = 2 ∧
    ((runTrace natOps wOpts true 20 3).filter (fun e => kSmooth e.kind)).length = 4 ∧
    ((runTrace natOps wOpts true 20 3).filter (fun e => kBubble e.kind)).length = 3 ∧
    ((runTrace natOps wOpts true 20 3).filter (fun e => kSmallRepeat e.kind)).length = 5 := by
  refine ⟨rfl, ?_, ?_, ?_, ?_, ?_⟩ <;> rfl

/-- C9: in every terminating run, the graph-exchange snapshots are
exactly: the post-error-correction snapshot (present if and only if
correction is enabled, written right after the error-correction visitor
with the corrected graph as its state), the post-remodel snapshot
(present if and only if remodelling is enabled, written right after the
remodel visitor with the remodelled graph as its state), the
unconditional post-modification snapshot, and the final snapshot
(present if and only if an output graph file is configured); the
post-modification snapshot is followed by no modification-stage event,
and the final snapshot is the very last pipeline event. -/
theorem assemble_snapshot_checkpoints (ops : SGOps G) (o : Opts) (bv : Bool)
    (fuel : Nat) (g0 : G) (h : (assembleRun ops o bv fuel g0).isSome = true) :
    ∃ gEC gRM gPM gFin t1 t2,
      (runTrace ops o bv fuel g0).filter (fun e => kSnap e.kind) =
        (if o.bCorrectReads then
          [⟨EvKind.visitErrorCorrect, gEC⟩,
           ⟨EvKind.writeASQG "afterEC.asqg.gz", (ops.errorCorrectVisit gEC).1⟩]
         else [])
        ++ (if o.bRemodelGraph then
          [⟨EvKind.visitRemodel, gRM⟩,
           ⟨EvKind.writeASQG "afterRM.asqg.gz", (ops.remodelVisit gRM).1⟩]
         else [])
        ++ ⟨EvKind.writeASQG "postmod.asqg.gz", gPM⟩ ::
          (if o.asqgOutfile = "" then [] else [⟨EvKind.writeASQG o.asqgOutfile, gFin⟩]) ∧
      runTrace ops o bv fuel g0 = t1 ++ ⟨EvKind.writeASQG "postmod.asqg.gz", gPM⟩ :: t2 ∧
      (∀ e ∈ t2, kMod e.kind = false) ∧
      (o.asqgOutfile ≠ "" →
        (runTrace ops o bv fuel g0).getLast? =
          some ⟨EvKind.writeASQG o.asqgOutfile, gFin⟩) := by
  obtain ⟨g1, tc1, g5, t5, g8, t8, hc, hr, hs, htr⟩ := assembleRun_inv ops o bv fuel g0 h
  have e1 : (preTrace o g0).filter (fun e => kSnap e.kind) = [] := by
    apply filter_kind_nil
    intro e he
    rcases preTrace_kinds o g0 e he with hk | hk | hk <;> simp [hk, kSnap]
  have e2 : tc1.filter (fun e => kSnap e.kind) = [] := by
    apply filter_kind_nil
    intro e he
    simp [containLoop_kinds ops fuel g0 g1 tc1 hc e he, kSnap]
  have e3 : (trPhase ops g1).2.filter (fun e => kSnap e.kind) = [] := by
    apply filter_kind_nil
    intro e he
    rcases trPhase_kinds ops g1 e he with hk | hk <;> simp [hk, kSnap]
  have e4 : (validatePhase o (trPhase ops g1).1).filter (fun e => kSnap e.kind) = [] := by
    apply filter_kind_nil
    intro e he
    rcases validatePhase_kinds o _ e he with hk | hk <;> simp [hk, kSnap]
  have e5 : (correctPhase ops o (trPhase ops g1).1).2.filter (fun e => kSnap e.kind) =
      (if o.bCorrectReads then
        [⟨EvKind.visitErrorCorrect, (trPhase ops g1).1⟩,
         ⟨EvKind.writeASQG "afterEC.asqg.gz",
          (ops.errorCorrectVisit (trPhase ops g1).1).1⟩]
       else []) := by
    unfold correctPhase
    split_ifs <;> simp [kSnap]
  have e6 : t5.filter (fun e => kSnap e.kind) =
      (if o.bRemodelGraph then
        [⟨EvKind.visitRemodel, (correctPhase ops o (trPhase ops g1).1).1⟩,
         ⟨EvKind.writeASQG "afterRM.asqg.gz",
          (ops.remodelVisit (correctPhase ops o (trPhase ops g1).1).1).1⟩]
       else []) := by
    unfold remodelPhase at hr
    split_ifs at hr with hrm
    · cases hl : containLoop ops fuel
          (ops.remodelVisit (correctPhase ops o (trPhase ops g1).1).1).1 with
      | none => rw [hl] at hr; exact absurd hr (by simp)
      | some r =>
        rw [hl] at hr
        obtain ⟨rfl, rfl⟩ := by simpa using hr
        have hnil : r.2.filter (fun e => kSnap e.kind) = [] := by
          apply filter_kind_nil
          intro e he
          simp [containLoop_kinds ops fuel _ r.1 r.2 (by rw [hl]) e he, kSnap]
        rw [if_pos hrm]
        simp [List.filter_append, hnil, kSnap]
        intro a ha
        simp [containLoop_kinds ops fuel _ r.1 r.2 (by rw [hl]) a ha]
    · obtain ⟨rfl, rfl⟩ := by simpa using hr
      rw [if_neg hrm]
      simp
  have e7 : (trimPhase ops o g5).2.filter (fun e => kSnap e.kind) = [] := by
    apply filter_kind_nil
    intro e he
    simp [trimPhase_kinds ops o g5 e he, kSnap]
  have e8 : (smoothPhase ops o (trimPhase ops o g5).1).2.filter (fun e => kSnap e.kind) = [] := by
    apply filter_kind_nil
    intro e he
    simp [smoothPhase_kinds ops o _ e he, kSnap]
  have e9 : t8.filter (fun e => kSnap e.kind) = [] := by
    apply filter_kind_nil
    intro e he
    rcases smallRepeatPhase_kinds ops o fuel _ g8 t8 hs e he with hk | hk <;> simp [hk, kSnap]
  have e10 : (compactPhase ops g8).2.filter (fun e => kSnap e.kind) =
      [⟨EvKind.writeASQG "postmod.asqg.gz", g8⟩] := by
    simp [compactPhase, kSnap]
  have e11 : (bubblePhase ops o (compactPhase ops g8).1).2.filter
      (fun e => kSnap e.kind) = [] := by
    apply filter_kind_nil
    intro e he
    rcases bubblePhase_kinds ops o _ e he with hk | hk <;> simp [hk, kSnap]
  have e12 : (finalPhase ops o bv (bubblePhase ops o (compactPhase ops g8).1).1).2.filter
      (fun e => kSnap e.kind) =
      (if o.asqgOutfile = "" then []
       else [⟨EvKind.writeASQG o.asqgOutfile,
         ops.renameVertices "contig-" (bubblePhase ops o (compactPhase ops g8).1).1⟩]) := by
    unfold finalPhase
    split_ifs <;> simp [kSnap]
  refine ⟨(trPhase ops g1).1, (correctPhase ops o (trPhase ops g1).1).1, g8,
    ops.renameVertices "contig-" (bubblePhase ops o (compactPhase ops g8).1).1,
    preTrace o g0 ++ tc1 ++ (trPhase ops g1).2 ++ validatePhase o (trPhase ops g1).1
      ++ (correctPhase ops o (trPhase ops g1).1).2 ++ t5 ++ (trimPhase ops o g5).2
      ++ (smoothPhase ops o (trimPhase ops o g5).1).2 ++ t8,
    [⟨EvKind.visitStats, g8⟩, ⟨EvKind.graphSimplify, g8⟩]
      ++ (bubblePhase ops o (compactPhase ops g8).1).2
      ++ (finalPhase ops o bv (bubblePhase ops o (compactPhase ops g8).1).1).2,
    ?_, ?_, ?_, ?_⟩
  · rw [htr]
    simp only [List.filter_append, e1, e2, e3, e4, e5, e6, e7, e8, e9, e10, e11, e12,
      List.nil_append, List.append_nil]
    simp
  · rw [htr]
    simp [compactPhase, List.append_assoc]
  · intro e he
    simp only [List.append_assoc, List.mem_append, List.mem_cons,
      List.not_mem_nil, or_false] at he
    rcases he with (rfl | rfl) | he | he
    · simp [kMod]
    · simp [kMod]
    · rcases bubblePhase_kinds ops o _ e he with hk | hk <;> simp [hk, kMod]
    · rcases finalPhase_kinds ops o bv _ e he with hk | hk | hk | hk | hk | hk <;>
        simp [hk, kMod]
  · intro hout
    rw [htr]
    have hfin : (finalPhase ops o bv (bubblePhase ops o (compactPhase ops g8).1).1).2.getLast? =
        some ⟨EvKind.writeASQG o.asqgOutfile,
          ops.renameVertices "contig-" (bubblePhase ops o (compactPhase ops g8).1).1⟩ := by
      unfold finalPhase
      rw [if_neg hout]
      split_ifs <;>
        simp [List.getLast?_cons_cons, List.getLast?_singleton]
    simp [List.getLast?_append, hfin]

/-- Witness for C9: the property instantiated on a concrete run with
correction, remodelling and a configured output graph file. -/
theorem assemble_snapshot_checkpoints_witness :
    ∃ gEC gRM gPM gFin t1 t2,
      (runTrace natOps wOpts true 20 3).filter (fun e => kSnap e.kind) =
        (if wOpts.bCorrectReads then
          [⟨EvKind.visitErrorCorrect, gEC⟩,
           ⟨EvKind.writeASQG "afterEC.asqg.gz", (natOps.errorCorrectVisit gEC).1⟩]
         else [])
        ++ (if wOpts.bRemodelGraph then
          [⟨EvKind.visitRemodel, gRM⟩,
           ⟨EvKind.writeASQG "afterRM.asqg.gz", (natOps.remodelVisit gRM).1⟩]
         else [])
        ++ ⟨EvKind.writeASQG "postmod.asqg.gz", gPM⟩ ::
          (if wOpts.asqgOutfile = "" then []
           else [⟨EvKind.writeASQG wOpts.asqgOutfile, gFin⟩]) ∧
      runTrace natOps wOpts true 20 3 = t1 ++ ⟨EvKind.writeASQG "postmod.asqg.gz", gPM⟩ :: t2 ∧
      (∀ e ∈ t2, kMod e.kind = false) ∧
      (wOpts.asqgOutfile ≠ "" →
        (runTrace natOps wOpts true 20 3).getLast? =
          some ⟨EvKind.writeASQG wOpts.asqgOutfile, gFin⟩) :=
  assemble_snapshot_checkpoints natOps wOpts true 20 3 (by decide)

/-- When the command line contains no `--help` and no `--version`, the
option-processing loop finishes (it never takes the early
`exit(EXIT_SUCCESS)` path). -/
theorem runCLItems_total :
    ∀ (items : List CLItem) (o : Opts) (die : Bool),
      (∀ it ∈ items, it ≠ CLItem.helpOpt ∧ it ≠ CLItem.versionOpt) →
      (runCLItems o die items).isSome = true := by
  intro items
  induction items with
  | nil => intro o die _; simp [runCLItems]
  | cons it rest ih =>
    intro o die h
    have hit := h it (by simp)
    have hrest : ∀ x ∈ rest, x ≠ CLItem.helpOpt ∧ x ≠ CLItem.versionOpt := fun x hx =>
      h x (by simp [hx])
    cases it <;> simp only [runCLItems, applyCLItem] <;>
      first
      | (exact ih _ _ hrest)
      | (exact absurd rfl hit.1)
      | (exact absurd rfl hit.2)

/-- Once the `die` flag is set, the remainder of the option loop never
clears it. -/
theorem runCLItems_die_mono :
    ∀ (items : List CLItem) (o o' : Opts) (die' : Bool),
      runCLItems o true items = some (o', die') → die' = true := by
  intro items
  induction items with
  | nil =>
    intro o o' die' h
    simp only [runCLItems] at h
    obtain ⟨-, h2⟩ := by simpa using h
    exact h2
  | cons it rest ih =>
    intro o o' die' h
    cases it <;> simp only [runCLItems, applyCLItem] at h <;>
      first
      | (exact ih _ _ _ h)
      | (exact absurd h (by simp))

/-- An unknown flag anywhere on the command line leaves the option loop
with the `die` flag set. -/
theorem runCLItems_unknown :
    ∀ (items : List CLItem) (o : Opts) (die : Bool) (o' : Opts) (die' : Bool),
      CLItem.unknownOpt ∈ items →
      runCLItems o die items = some (o', die') → die' = true := by
  intro items
  induction items with
  | nil => intro o die o' die' hm _; simp at hm
  | cons it rest ih =>
    intro o die o' die' hm h
    rcases List.mem_cons.mp hm with rfl | hmr
    · simp only [runCLItems, applyCLItem] at h
      exact runCLItems_die_mono rest _ _ _ h
    · cases it <;> simp only [runCLItems, applyCLItem] at h <;>
        first
        | (exact ih _ _ _ _ hmr h)
        | (exact absurd h (by simp))

/-- The option loop leaves `minOverlap` untouched when no
minimum-overlap option occurs on the command line. -/
theorem runCLItems_minOverlap :
    ∀ (items : List CLItem) (o : Opts) (die : Bool) (o' : Opts) (die' : Bool),
      (∀ n, CLItem.minOverlapOpt n ∉ items) →
      runCLItems o die items = some (o', die') → o'.minOverlap = o.minOverlap := by
  intro items
  induction items with
  | nil =>
    intro o die o' die' _ h
    obtain ⟨h1, -⟩ := by simpa [runCLItems] using h
    rw [h1]
  | cons it rest ih =>
    intro o die o' die' hno h
    have hrest : ∀ n, CLItem.minOverlapOpt n ∉ rest := by
      intro n hn
      exact hno n (by simp [hn])
    cases it <;> simp only [runCLItems, applyCLItem] at h <;>
      first
      | (have hstep := ih _ _ _ _ hrest h
         simpa using hstep)
      | (exact absurd h (by simp))
      | skip
    case minOverlapOpt n => exact absurd (by simp) (hno n)

/-- C7 (amended): provided no help/version flag occurs on the command
line, an unknown flag or a positional-argument count other than one
makes `assembleMain` exit with code 1 after the usage message and with
no pipeline event (no graph is loaded and no stage runs); and whenever
option parsing succeeds and the pipeline completes, `assembleMain`
returns exit code 0 with the pipeline's trace.  (A help or version flag
instead exits early with code 0.) -/
theorem assembleMain_usage_and_success (ops : SGOps G) (bv : Bool) (fuel : Nat)
    (loader : String → Nat → G) (items : List CLItem) (pos : List String)
    (hnh : ∀ it ∈ items, it ≠ CLItem.helpOpt ∧ it ≠ CLItem.versionOpt) :
    ((CLItem.unknownOpt ∈ items ∨ pos.length ≠ 1) →
      assembleMain ops bv fuel loader items pos = some (1, [])) ∧
    (∀ o r, parseAssembleOptions items pos = ParseResult.parsed o →
      assembleRun ops o bv fuel (loader o.asqgFile o.minOverlap) = some r →
      assembleMain ops bv fuel loader items pos = some (0, r.2)) := by
  constructor
  · intro hbad
    have hsome := runCLItems_total items
      { initOpts with outFile := "contigs.fa", minOverlap := 0 } false hnh
    cases hrun : runCLItems { initOpts with outFile := "contigs.fa", minOverlap := 0 }
        false items with
    | none => rw [hrun] at hsome; exact absurd hsome (by simp)
    | some r =>
      obtain ⟨ro, rdie⟩ := r
      have hdie : finalDie rdie pos = true := by
        unfold finalDie
        rcases hbad with hunk | hlen
        · have hd := runCLItems_unknown items _ false ro rdie hunk hrun
          split_ifs <;> simp [hd]
        · rcases Nat.lt_or_ge pos.length 1 with h1 | h1
          · rw [if_pos h1]
          · have h2 : 1 < pos.length := by omega
            rw [if_neg (by omega), if_pos h2]
      unfold assembleMain parseAssembleOptions
      rw [hrun]
      simp [hdie]
  · intro o r hp hrun
    unfold assembleMain
    rw [hp]
    simp [hrun]

/-- Witness for C7 (amended): a concrete command line with an unknown
flag and no positional argument exits with code 1 before any pipeline
event. -/
theorem assembleMain_usage_and_success_witness :
    assembleMain natOps true 20 (fun _ _ => 3) [CLItem.unknownOpt] ([] : List String) =
      some (1, []) :=
  (assembleMain_usage_and_success natOps true 20 (fun _ _ => 3) [CLItem.unknownOpt] []
    (by decide)).1 (Or.inl (by decide))

/-- Counterexample for C7 as stated: the command line `[--help]` has a
missing positional argument, yet the process prints the usage text and
exits with code 0 (`exit(EXIT_SUCCESS)` in the `OPT_HELP` case), not
with a nonzero code, so "missing positional argument implies nonzero
exit" fails as stated. -/
theorem assembleMain_usage_exit_counterexample :
    ([] : List String).length < 1 ∧
    parseAssembleOptions [CLItem.helpOpt] [] = ParseResult.exitedSuccess ∧
    assembleMain natOps true 20 (fun _ _ => 3) [CLItem.helpOpt] ([] : List String) =
      some (0, []) := by
  refine ⟨by decide, rfl, rfl⟩

/-- C10: when no minimum-overlap option occurs on the command line and
parsing succeeds, the minimum overlap defaults to 0, and loading the
graph with that threshold keeps every overlap record (no record is
filtered out by length at pipeline entry). -/
theorem minOverlap_default_no_filtering (items : List CLItem) (pos : List String)
    (o : Opts) (recs : List OverlapRec)
    (hno : ∀ n, CLItem.minOverlapOpt n ∉ items)
    (hp : parseAssembleOptions items pos = ParseResult.parsed o) :
    o.minOverlap = 0 ∧ loadASQG recs o.minOverlap = recs := by
  have h0 : o.minOverlap = 0 := by
    unfold parseAssembleOptions at hp
    cases hrun : runCLItems { initOpts with outFile := "contigs.fa", minOverlap := 0 }
        false items with
    | none => rw [hrun] at hp; exact absurd hp (by simp)
    | some r =>
      obtain ⟨ro, rdie⟩ := r
      rw [hrun] at hp
      by_cases hd : finalDie rdie pos = true
      · simp [hd] at hp
      · simp [hd] at hp
        have hmo := runCLItems_minOverlap items _ false ro rdie hno hrun
        rw [← hp]
        simpa using hmo
  refine ⟨h0, ?_⟩
  rw [h0]
  unfold loadASQG
  simp

/-- The option state produced by parsing an empty option list with the
single positional argument `reads.asqg`. -/
def c10Opts : Opts :=
  { initOpts with outFile := "contigs.fa", asqgFile := "reads.asqg" }

/-- A concrete overlap record for the C10 witness. -/
def c10Rec : OverlapRec :=
  { idA := "r1", idB := "r2", overlapLen := 30 }

/-- Witness for C10: an empty option list with one positional argument
parses, defaults the minimum overlap to 0 and keeps a concrete record
list intact. -/
theorem minOverlap_default_no_filtering_witness :
    c10Opts.minOverlap = 0 ∧ loadASQG [c10Rec] c10Opts.minOverlap = [c10Rec] :=
  minOverlap_default_no_filtering [] ["reads.asqg"] c10Opts [c10Rec]
    (by intro n hn; simp at hn) (by rfl)
